import Mathlib

/-!
Verification of the storage-and-query core of the VAST telemetry platform.

The development shallowly embeds the relevant parts of the repository:

* `vast/detail/zigzag.hpp` — zig-zag coding of signed integers;
* `src/system/local_segment_store.cpp` — the passive and active local
  segment stores (request deferral, erase protocol, lookup dispatch);
* the segment / segment-builder / table-slice operations and the query
  supervisor, whose implementations are not part of the sources at hand and
  are therefore modelled from the specification (each such definition is
  marked `Modelled from the spec:`).

Machine integers are embedded as `Nat`/`Int` with explicit reduction modulo
`2 ^ w`; actor messaging is embedded as explicit state passing over lists of
messages, and every fallible operation returns an explicit result value.
-/

namespace Vast

/-! ## Zig-zag coding (`vast/detail/zigzag.hpp`) -/

/-- Arithmetic shift right of a signed two's-complement value by `n` bits
(the expression `x >> n` on a signed operand): floor division by `2 ^ n`.
Division of an `Int` by a positive divisor rounds toward negative
infinity, which is exactly the arithmetic-shift semantics. -/
def asr (x : Int) (n : Nat) : Int :=
  x / 2 ^ n

/-- Conversion of a signed value to the unsigned type of a `w`-bit machine
integer (the expression `std::make_unsigned_t<T>(x)`): reduction modulo
`2 ^ w`. -/
def toUnsigned (w : Nat) (x : Int) : Nat :=
  (x % 2 ^ w).toNat

/-- Reinterpretation of an unsigned `w`-bit value as a signed
two's-complement value (the conversion to `std::make_signed_t<T>` on
return from `decode`). -/
def toSigned (w : Nat) (u : Nat) : Int :=
  if u < 2 ^ (w - 1) then (u : Int) else (u : Int) - 2 ^ w

/-- Function `encode` of `vast/detail/zigzag.hpp`:
`(std::make_unsigned_t<T>(x) << 1) ^ (x >> width)` for a `w`-bit signed
type `T`, where `width = std::numeric_limits<T>::digits = w - 1`.  The
unsigned left shift wraps modulo `2 ^ w`, and the signed right operand of
the xor is converted to unsigned. -/
def encode (w : Nat) (x : Int) : Nat :=
  (toUnsigned w x * 2 % 2 ^ w) ^^^ toUnsigned w (asr x (w - 1))

/-- Function `decode` of `vast/detail/zigzag.hpp`:
`(x >> 1) ^ -static_cast<std::make_signed_t<T>>(x & 1)`.  The negated
signed operand is converted to unsigned for the xor and the result is
reinterpreted as a signed value. -/
def decode (w : Nat) (u : Nat) : Int :=
  toSigned w ((u >>> 1) ^^^ toUnsigned w (-(Int.ofNat (u &&& 1))))

/-- Xor with the all-ones word of width `w` is complement within `w` bits. -/
theorem xor_all_ones {w v : Nat} (h : v < 2 ^ w) :
    v ^^^ (2 ^ w - 1) = 2 ^ w - 1 - v := by
  apply Nat.eq_of_testBit_eq
  intro i
  have h1 : 2 ^ w - 1 - v = 2 ^ w - (v + 1) := by omega
  rw [h1, Nat.testBit_two_pow_sub_succ h, Nat.testBit_xor,
    Nat.testBit_two_pow_sub_one]
  by_cases hi : i < w
  · simp [hi]
  · have hvi : v < 2 ^ i :=
      lt_of_lt_of_le h (Nat.pow_le_pow_right (by norm_num) (by omega))
    simp [hi, Nat.testBit_lt_two_pow hvi]

/-- Remainder of a negative value just above `-m`. -/
theorem emod_neg_small {m x : Int} (h1 : -m ≤ x) (h2 : x < 0) :
    x % m = x + m := by
  have h5 : (x + m * 1) % m = x + m * 1 :=
    Int.emod_eq_of_lt (by linarith) (by linarith)
  calc x % m = (x + m * 1) % m := (Int.add_mul_emod_self_left x m 1).symm
    _ = x + m * 1 := h5
    _ = x + m := by ring

/-- Floor division of a negative value just above `-m` yields `-1`. -/
theorem ediv_neg_small {m x : Int} (h0 : 0 < m) (h1 : -m ≤ x) (h2 : x < 0) :
    x / m = -1 := by
  have hmod : x % m = x + m := emod_neg_small h1 h2
  have hdiv := Int.emod_add_ediv x m
  have h3 : m * (x / m) = m * (-1) := by rw [hmod] at hdiv; linarith
  exact mul_left_cancel₀ (ne_of_gt h0) h3

/-- C10: for every `w`-bit signed integral value `x`, zig-zag decoding of
the zig-zag encoding of `x` yields `x` again, and the encoding maps
`0, -1, 1, -2, 2, …` to `0, 1, 2, 3, 4, …` (that is, a non-negative `x`
encodes to `2 * x` and a negative `x` to `2 * (-x) - 1`). -/
theorem zigzag_roundtrip (w : Nat) (x : Int) (hw : 1 ≤ w)
    (hlo : -(2 ^ (w - 1)) ≤ x) (hhi : x < 2 ^ (w - 1)) :
    decode w (encode w x) = x ∧
    (encode w x : Int) = if 0 ≤ x then 2 * x else 2 * (-x) - 1 := by
  have hw1 : w - 1 + 1 = w := by omega
  have hNpow : (2 : Nat) ^ w = 2 ^ (w - 1) * 2 := by
    conv_lhs => rw [← hw1]
    rw [pow_succ]
  have hZpow : (2 : Int) ^ w = 2 ^ (w - 1) * 2 := by
    conv_lhs => rw [← hw1]
    rw [pow_succ]
  have hcast : ((2 ^ w : Nat) : Int) = 2 ^ w := by push_cast; ring
  have hcast1 : ((2 ^ (w - 1) : Nat) : Int) = 2 ^ (w - 1) := by push_cast; ring
  have hposZ : (0 : Int) < 2 ^ (w - 1) := by positivity
  have hposN : 0 < 2 ^ (w - 1) := Nat.two_pow_pos (w - 1)
  by_cases hx : 0 ≤ x
  · -- non-negative case: encoding is `2 * x`
    have hxlt : x < 2 ^ w := by rw [hZpow]; nlinarith
    have hmodx : x % (2 : Int) ^ w = x := Int.emod_eq_of_lt hx hxlt
    have haInt : ((x.toNat : Int)) = x := Int.toNat_of_nonneg hx
    have haw : x.toNat < 2 ^ (w - 1) := by omega
    have ha2 : x.toNat * 2 < 2 ^ w := by omega
    have henc : encode w x = x.toNat * 2 := by
      unfold encode toUnsigned asr
      rw [hmodx, Int.ediv_eq_zero_of_lt hx hhi]
      simp [Nat.mod_eq_of_lt ha2]
    have hdec : decode w (x.toNat * 2) = x := by
      unfold decode toUnsigned toSigned
      have e1 : (x.toNat * 2) >>> 1 = x.toNat := by
        rw [Nat.shiftRight_eq_div_pow, pow_one]; omega
      have e2 : (x.toNat * 2) &&& 1 = 0 := by
        rw [Nat.and_one_is_mod]; omega
      rw [e1, e2, show Int.ofNat 0 = (0 : Int) from rfl]
      simp only [neg_zero, Int.zero_emod, Int.toNat_zero, Nat.xor_zero]
      rw [if_pos haw]
      exact haInt
    refine ⟨by rw [henc]; exact hdec, ?_⟩
    rw [henc, if_pos hx]
    push_cast
    omega
  · -- negative case: encoding is `2 * (-x) - 1`
    push_neg at hx
    have hbound : -(2 : Int) ^ w ≤ x := by rw [hZpow]; nlinarith
    have hmodx : x % (2 : Int) ^ w = x + 2 ^ w := emod_neg_small hbound hx
    have hone : (1 : Int) < 2 ^ w := by rw [hZpow]; nlinarith
    have hmod1 : (-1 : Int) % 2 ^ w = 2 ^ w - 1 := by
      have h := emod_neg_small (m := 2 ^ w) (x := -1) (by linarith) (by norm_num)
      linarith
    have hA : (((x + 2 ^ w).toNat : Int)) = x + 2 ^ w :=
      Int.toNat_of_nonneg (by linarith)
    have hAlow : 2 ^ (w - 1) ≤ (x + 2 ^ w).toNat := by omega
    have hAhigh : (x + 2 ^ w).toNat < 2 ^ w := by omega
    have htoNatMask : ((2 : Int) ^ w - 1).toNat = 2 ^ w - 1 := by omega
    have henc : encode w x
        = 2 ^ w - 1 - ((x + 2 ^ w).toNat * 2 - 2 ^ w) := by
      unfold encode toUnsigned asr
      rw [hmodx, ediv_neg_small hposZ hlo hx, hmod1]
      have hb : (x + 2 ^ w).toNat * 2 % 2 ^ w
          = (x + 2 ^ w).toNat * 2 - 2 ^ w := by
        rw [Nat.mod_eq_sub_mod (by omega), Nat.mod_eq_of_lt (by omega)]
      rw [hb, htoNatMask, xor_all_ones (by omega)]
    have hdec : decode w (encode w x) = x := by
      rw [henc]
      unfold decode toUnsigned toSigned
      have e1 : (2 ^ w - 1 - ((x + 2 ^ w).toNat * 2 - 2 ^ w)) >>> 1
          = 2 ^ w - 1 - (x + 2 ^ w).toNat := by
        rw [Nat.shiftRight_eq_div_pow, pow_one]; omega
      have e2 : (2 ^ w - 1 - ((x + 2 ^ w).toNat * 2 - 2 ^ w)) &&& 1 = 1 := by
        rw [Nat.and_one_is_mod]; omega
      rw [e1, e2, show Int.ofNat 1 = (1 : Int) from rfl]
      rw [show (-1 : Int) % 2 ^ w = 2 ^ w - 1 from hmod1, htoNatMask,
        xor_all_ones (by omega)]
      rw [if_neg (by omega)]
      omega
    refine ⟨hdec, ?_⟩
    rw [henc, if_neg (by omega)]
    omega

/-- Witness for C10 at the concrete width `8` and value `-2`: the encoding
is `3` and decoding recovers `-2`. -/
theorem zigzag_roundtrip_witness :
    (1 ≤ 8 ∧ -((2 : Int) ^ (8 - 1)) ≤ -2 ∧ (-2 : Int) < 2 ^ (8 - 1)) ∧
    (decode 8 (encode 8 (-2)) = -2 ∧
      (encode 8 (-2) : Int) = if 0 ≤ (-2 : Int) then 2 * (-2) else 2 * (-(-2)) - 1) :=
  ⟨by decide, zigzag_roundtrip 8 (-2) (by decide) (by decide) (by decide)⟩

/-! ## Slices and segments

The segment and table-slice implementations are not part of the sources at
hand (only their callers in `local_segment_store.cpp` are), so the
definitions of this section are modelled from the specification. -/

/-- Modelled from the spec: a table slice is an ordered block of records,
each record being an event id paired with its payload; ids within a slice
are ascending (stated as a hypothesis where a theorem needs it). -/
abbrev Slice (α : Type) := List (Nat × α)

/-- The ids of the records of a slice. -/
def sliceIds {α} (sl : Slice α) : List Nat :=
  sl.map Prod.fst

/-- Modelled from the spec: a segment is an immutable container of table
slices carrying a UUID. -/
structure Segment (α : Type) where
  uuid : Nat
  slices : List (Slice α)
deriving DecidableEq

/-- The set of record ids present in a segment. -/
def Segment.ids {α} (s : Segment α) : List Nat :=
  (s.slices.map sliceIds).flatten

/-- Modelled from the spec (§4.1): `segment::erase(ids)` produces the
slices obtained by removing every record whose id is in `I`; empty results
are preserved. -/
def Segment.erase {α} (s : Segment α) (I : List Nat) : List (Slice α) :=
  s.slices.map (fun sl => sl.filter (fun r => !decide (r.1 ∈ I)))

/-- Modelled from the spec (§4.1): `segment::copy_without(ids)` rebuilds a
segment from `erase(ids)` under the same UUID. -/
def Segment.copy_without {α} (s : Segment α) (I : List Nat) : Segment α :=
  ⟨s.uuid, s.erase I⟩

/-- Membership in the ids of a list of slices, unfolded to records. -/
theorem mem_flatten_sliceIds {α} (L : List (Slice α)) (i : Nat) :
    i ∈ (L.map sliceIds).flatten ↔ ∃ sl ∈ L, ∃ r ∈ sl, (r : Nat × α).1 = i := by
  simp only [List.mem_flatten, List.mem_map, sliceIds]
  constructor
  · rintro ⟨l, ⟨sl, hsl, rfl⟩, hi⟩
    obtain ⟨r, hr, rfl⟩ := List.mem_map.mp hi
    exact ⟨sl, hsl, r, hr, rfl⟩
  · rintro ⟨sl, hsl, r, hr, rfl⟩
    exact ⟨sl.map Prod.fst, ⟨sl, hsl, rfl⟩, List.mem_map.mpr ⟨r, hr, rfl⟩⟩

/-- C6: for every segment `s` and id set `I`, the set of record ids present
in `copy_without(s, I)` equals the set of record ids present in `s` minus
`I`. -/
theorem copy_without_ids {α} (s : Segment α) (I : List Nat) :
    ∀ i, i ∈ (s.copy_without I).ids ↔ i ∈ s.ids ∧ i ∉ I := by
  intro i
  rw [show (s.copy_without I).ids = ((s.erase I).map sliceIds).flatten from rfl,
    show s.ids = (s.slices.map sliceIds).flatten from rfl,
    mem_flatten_sliceIds, mem_flatten_sliceIds]
  constructor
  · rintro ⟨sl, hsl, r, hr, rfl⟩
    obtain ⟨sl0, hsl0, rfl⟩ :=
      List.mem_map.mp (show sl ∈ s.slices.map
        (fun sl => sl.filter (fun r => !decide (r.1 ∈ I))) from hsl)
    have hr' := List.mem_filter.mp hr
    refine ⟨⟨sl0, hsl0, r, hr'.1, rfl⟩, ?_⟩
    simpa using hr'.2
  · rintro ⟨⟨sl0, hsl0, r, hr, rfl⟩, hnot⟩
    refine ⟨sl0.filter (fun r => !decide (r.1 ∈ I)), ?_, r, ?_, rfl⟩
    · exact List.mem_map.mpr ⟨sl0, hsl0, rfl⟩
    · exact List.mem_filter.mpr ⟨hr, by simpa using hnot⟩

/-! ## Query evaluation: `handle_lookup` (local_segment_store.cpp, lines 36-89) -/

/-- Enumeration `query::count::mode`. -/
inductive CountMode where
  | exact
  | estimate
deriving DecidableEq

/-- Enumeration `query::extract::policy`. -/
inductive ExtractPolicy where
  | preserve_ids
  | drop_ids
deriving DecidableEq

/-- The command variant of `vast::query` (`query.cmd`). -/
inductive QueryCmd where
  | count (mode : CountMode)
  | extract (policy : ExtractPolicy)
  | erase
deriving DecidableEq

/-- A query as seen by the store layer: the command and the expression.
The expression is embedded as `none` for the empty expression (the test
`query.expr == expression{}` at line 41) or as `some c` where `c` is the
tailored, meta-pruned per-record checker.  Tailoring is uniform across
slices in this embedding and its failure path (line 45) is not modelled. -/
structure Query (α : Type) where
  cmd : QueryCmd
  expr : Option (α → Bool)

/-- The checker built for a slice: for the empty expression a
default-constructed checker that matches every record
(`checkers.emplace_back()` at line 42). -/
def checkerOf {α : Type} (e : Option (α → Bool)) : α → Bool :=
  fun a =>
    match e with
    | none => true
    | some c => c a

/-- Modelled from the spec (§4.4 count): `count_matching(slice, checker,
ids)` is the number of records of the slice whose id is in `ids` and whose
fields satisfy the checker. -/
def count_matching {α} (sl : Slice α) (checker : α → Bool) (I : List Nat) :
    Nat :=
  (sl.filter (fun r => decide (r.1 ∈ I) && checker r.2)).length

/-- Splitting of a record list into maximal runs of consecutive ids. -/
def groupRuns {α} : List (Nat × α) → List (List (Nat × α))
  | [] => []
  | r :: rs =>
    match groupRuns rs with
    | [] => [[r]]
    | [] :: gs => [r] :: [] :: gs
    | (r' :: g) :: gs =>
      if r.1 + 1 = r'.1 then (r :: r' :: g) :: gs else [r] :: (r' :: g) :: gs

/-- Concatenating the runs gives back the original record list. -/
theorem flatten_groupRuns {α} (l : List (Nat × α)) :
    (groupRuns l).flatten = l := by
  induction l with
  | nil => rfl
  | cons r rs ih =>
    rw [groupRuns]
    cases hg : groupRuns rs with
    | nil => rw [hg] at ih; simpa using ih.symm
    | cons g gs =>
      cases g with
      | nil =>
        rw [hg] at ih
        simpa using ih
      | cons r' g' =>
        rw [hg] at ih
        by_cases hr : r.1 + 1 = r'.1
        · simpa [hr] using ih
        · simpa [hr] using ih

/-- Modelled from the spec (§4.2, §4.4): `select(slice, ids)` restricts a
slice to the records whose id is in `ids` and returns the restriction as
the list of maximal contiguous sub-slices, in ascending id order. -/
def select {α} (sl : Slice α) (I : List Nat) : List (Slice α) :=
  groupRuns (sl.filter (fun r => decide (r.1 ∈ I)))

/-- Modelled from the spec (§4.4): `evaluate(checker, slice)` yields the
ids of the records of the slice whose fields satisfy the checker. -/
def evaluate {α} (checker : α → Bool) (sl : Slice α) : List Nat :=
  (sl.filter (fun r => checker r.2)).map Prod.fst

/-- Modelled from the spec (§4.4 drop_ids): the fused
`filter(slice, checker, ids)` keeps the records whose id is in `ids` and
which satisfy the checker, and yields nothing when no record survives. -/
def filter {α} (sl : Slice α) (checker : α → Bool) (I : List Nat) :
    Option (Slice α) :=
  let res := sl.filter (fun r => decide (r.1 ∈ I) && checker r.2)
  if res.isEmpty then none else some res

/-- Arm `preserve_ids` of the extract handler (lines 64-73): restrict the
slice to the query ids; for the empty expression forward every sub-slice
directly, otherwise evaluate the checker on each sub-slice and forward
every matching run. -/
def extractPreserve {α} (e : Option (α → Bool)) (I : List Nat)
    (sl : Slice α) : List (Slice α) :=
  ((select sl I).map (fun sub =>
    match e with
    | none => [sub]
    | some c => select sub (evaluate c sub))).flatten

/-- Arm `drop_ids` of the extract handler (lines 74-79): the fused filter
produces at most one slice, which is forwarded only when present. -/
def extractDrop {α} (e : Option (α → Bool)) (I : List Nat) (sl : Slice α) :
    List (Slice α) :=
  match filter sl (checkerOf e) I with
  | none => []
  | some res => [res]

/-- A message sent by the store to a query's sink. -/
inductive OutMsg (α : Type) where
  | countResult (n : Nat)
  | sliceResult (sl : Slice α)
deriving DecidableEq

/-- Result of `handle_lookup`: the messages sent to the sink together with
the final `done`, or an abort (`die` / failed assertion). -/
inductive LookupResult (α : Type) where
  | ok (sent : List (OutMsg α))
  | aborted
deriving DecidableEq

/-- Function `handle_lookup` of local_segment_store.cpp (lines 36-89),
dispatching on the query command over the resolved slices.  A count query
in estimate mode executes `die("logic error detected")` (line 54) and an
erase query reaching this function fails the assertion at line 84; both
are embedded as `aborted`. -/
def handle_lookup {α} (q : Query α) (I : List Nat)
    (slices : List (Slice α)) : LookupResult α :=
  match q.cmd with
  | .count mode =>
    match mode with
    | .estimate => .aborted
    | .exact =>
      .ok (slices.map (fun sl =>
        .countResult (count_matching sl (checkerOf q.expr) I)))
  | .extract policy =>
    .ok ((slices.map (fun sl =>
      match policy with
      | .preserve_ids => (extractPreserve q.expr I sl).map OutMsg.sliceResult
      | .drop_ids => (extractDrop q.expr I sl).map OutMsg.sliceResult)).flatten)
  | .erase => .aborted

/-- C4: a count query in estimate mode reaching the store-layer lookup
handler aborts (`die("logic error detected")`) instead of returning a
result — the abort happens exactly for the estimate mode — while an exact
count proceeds and sends one per-slice count of the records matching ids
and expression to the sink. -/
theorem count_estimate_aborts {α} (e : Option (α → Bool)) (I : List Nat)
    (slices : List (Slice α)) :
    (∀ mode, handle_lookup ⟨.count mode, e⟩ I slices = .aborted
        ↔ mode = .estimate) ∧
    handle_lookup ⟨.count .exact, e⟩ I slices
      = .ok (slices.map (fun sl =>
          .countResult (count_matching sl (checkerOf e) I))) := by
  constructor
  · intro mode
    cases mode <;> simp [handle_lookup]
  · rfl

/-- On a slice whose ids are pairwise distinct, restricting to the ids
returned by `evaluate` is the same as filtering by the checker itself. -/
theorem filter_mem_evaluate {α} (c : α → Bool) (sub : Slice α)
    (h : sub.Pairwise (fun r r' => r.1 < r'.1)) :
    sub.filter (fun r => decide (r.1 ∈ evaluate c sub))
      = sub.filter (fun r => c r.2) := by
  have hnd : (sub.map Prod.fst).Nodup :=
    (List.pairwise_map.mpr h).imp (fun hlt => Nat.ne_of_lt hlt)
  apply List.filter_congr
  intro r hr
  by_cases hc : c r.2
  · have : r.1 ∈ evaluate c sub := by
      refine List.mem_map.mpr ⟨r, List.mem_filter.mpr ⟨hr, hc⟩, rfl⟩
    simp [this, hc]
  · have : r.1 ∉ evaluate c sub := by
      intro hmem
      obtain ⟨r', hr', hfst⟩ := List.mem_map.mp hmem
      have hr'sub := (List.mem_filter.mp hr').1
      have : r' = r :=
        List.inj_on_of_nodup_map hnd hr'sub hr hfst
      subst this
      exact hc (by simpa using (List.mem_filter.mp hr').2)
    simp [this, hc]

/-- C7: dispatch of an extract query over a slice with ascending ids.
With policy preserve_ids the slice is first restricted to the query's ids
and then evaluated, and the forwarded sub-slices concatenate to exactly the
records matching both ids and checker, in the original ascending id order.
With policy drop_ids the fused filter produces at most one result slice per
input slice — the surviving records — and an empty result is not
forwarded. -/
theorem extract_dispatch {α} (c : α → Bool) (I : List Nat) (sl : Slice α)
    (hasc : sl.Pairwise (fun r r' => r.1 < r'.1)) :
    (extractPreserve (some c) I sl).flatten
        = sl.filter (fun r => decide (r.1 ∈ I) && c r.2) ∧
    extractDrop (some c) I sl
        = (if (sl.filter (fun r => decide (r.1 ∈ I) && c r.2)).isEmpty
           then ([] : List (Slice α))
           else [sl.filter (fun r => decide (r.1 ∈ I) && c r.2)]) := by
  constructor
  · have hsl : ∀ sub ∈ select sl I,
        (select sub (evaluate c sub)).flatten
          = sub.filter (fun r => c r.2) := by
      intro sub hsub
      have hsubl : sub.Sublist (sl.filter (fun r => decide (r.1 ∈ I))) := by
        have h := List.sublist_flatten_of_mem hsub
        rwa [select, flatten_groupRuns] at h
      have hp : sub.Pairwise (fun r r' => r.1 < r'.1) :=
        List.Pairwise.sublist hsubl (hasc.filter _)
      rw [select, flatten_groupRuns, filter_mem_evaluate c sub hp]
    calc (extractPreserve (some c) I sl).flatten
        = ((select sl I).map
            (fun sub => (select sub (evaluate c sub)).flatten)).flatten := by
          rw [extractPreserve, List.flatten_flatten, List.map_map]
          rfl
      _ = ((select sl I).map (fun sub => sub.filter (fun r => c r.2))).flatten := by
          rw [List.map_congr_left hsl]
      _ = ((select sl I).flatten).filter (fun r => c r.2) :=
          (List.filter_flatten _ _).symm
      _ = (sl.filter (fun r => decide (r.1 ∈ I))).filter (fun r => c r.2) := by
          rw [select, flatten_groupRuns]
      _ = sl.filter (fun r => decide (r.1 ∈ I) && c r.2) := by
          rw [List.filter_filter]
          exact List.filter_congr (fun r _ => Bool.and_comm _ _)
  · rw [extractDrop, filter]
    have hch : (fun r : Nat × α => decide (r.1 ∈ I) && checkerOf (some c) r.2)
        = fun r : Nat × α => decide (r.1 ∈ I) && c r.2 := rfl
    simp only [hch]
    by_cases he : (sl.filter (fun r => decide (r.1 ∈ I) && c r.2)).isEmpty
    · simp [he]
    · simp [he]

/-- Witness for C7 at a concrete slice, id set and checker. -/
theorem extract_dispatch_witness :
    ([((1 : Nat), (10 : Nat)), (2, 20), (5, 30)].Pairwise
      (fun r r' => r.1 < r'.1)) ∧
    ((extractPreserve (some (fun a => decide (15 ≤ a))) [1, 2, 5]
        [((1 : Nat), (10 : Nat)), (2, 20), (5, 30)]).flatten
      = [((1 : Nat), (10 : Nat)), (2, 20), (5, 30)].filter
          (fun r => decide (r.1 ∈ [1, 2, 5]) && decide (15 ≤ r.2)) ∧
     extractDrop (some (fun a => decide (15 ≤ a))) [1, 2, 5]
        [((1 : Nat), (10 : Nat)), (2, 20), (5, 30)]
      = (if ([((1 : Nat), (10 : Nat)), (2, 20), (5, 30)].filter
            (fun r => decide (r.1 ∈ [1, 2, 5]) && decide (15 ≤ r.2))).isEmpty
         then ([] : List (Slice Nat))
         else [[((1 : Nat), (10 : Nat)), (2, 20), (5, 30)].filter
            (fun r => decide (r.1 ∈ [1, 2, 5]) && decide (15 ≤ r.2))])) :=
  ⟨by decide,
   extract_dispatch (fun a => decide (15 ≤ a)) [1, 2, 5]
     [(1, 10), (2, 20), (5, 30)] (by decide)⟩

/-! ## Active store: the segment builder and the erase handler -/

/-- Modelled from the spec (§4.1): the append-only segment builder — the
UUID the builder was last reset to and the accumulated slices. -/
structure SegmentBuilder (α : Type) where
  uuid : Nat
  slices : List (Slice α)
deriving DecidableEq

/-- Modelled from the spec (§4.1): `finish()` seals the accumulated slices
into an immutable segment carrying a freshly assigned UUID; the fresh UUID
is passed explicitly here.  The builder is unusable afterwards until
`reset`. -/
def SegmentBuilder.finish {α} (b : SegmentBuilder α) (fresh : Nat) :
    Segment α :=
  ⟨fresh, b.slices⟩

/-- Modelled from the spec (§4.1): `reset(new_id)` re-initialises the
builder, empty, under the given UUID. -/
def SegmentBuilder.reset {α} (_b : SegmentBuilder α) (id : Nat) :
    SegmentBuilder α :=
  ⟨id, []⟩

/-- Modelled from the spec (§4.1): `add(slice)` appends a slice to the
builder. -/
def SegmentBuilder.add {α} (b : SegmentBuilder α) (sl : Slice α) :
    SegmentBuilder α :=
  ⟨b.uuid, b.slices ++ [sl]⟩

/-- The records currently held by a builder. -/
def SegmentBuilder.rows {α} (b : SegmentBuilder α) : List (Nat × α) :=
  b.slices.flatten

/-- Erase handler of `active_local_store` (local_segment_store.cpp, lines
221-231): seal the builder into a segment, erase the ids from the sealed
segment, reset the builder to the sealed segment's UUID and replay every
surviving slice into it. -/
def active_erase {α} (b : SegmentBuilder α) (I : List Nat) (fresh : Nat) :
    SegmentBuilder α :=
  let seg := b.finish fresh
  let id := seg.uuid
  let slices := seg.erase I
  slices.foldl SegmentBuilder.add (b.reset id)

/-- Folding `add` appends the slices and keeps the UUID. -/
theorem foldl_add_slices {α} (L : List (Slice α)) (b0 : SegmentBuilder α) :
    (L.foldl SegmentBuilder.add b0).slices = b0.slices ++ L ∧
    (L.foldl SegmentBuilder.add b0).uuid = b0.uuid := by
  induction L generalizing b0 with
  | nil => simp
  | cons sl L ih =>
    have h := ih (b0.add sl)
    simp only [List.foldl_cons] at *
    refine ⟨?_, ?_⟩
    · rw [h.1]
      simp [SegmentBuilder.add]
    · rw [h.2]
      rfl

/-- C8: after an erase with id set `I` on an active store, the builder
holds exactly the records of the pre-erase builder whose ids are not in
`I`, in order, under the same UUID as the sealed segment. -/
theorem active_erase_rows {α} (b : SegmentBuilder α) (I : List Nat)
    (fresh : Nat) :
    (active_erase b I fresh).rows
        = b.rows.filter (fun r => !decide (r.1 ∈ I)) ∧
    (active_erase b I fresh).uuid = (b.finish fresh).uuid := by
  have h := foldl_add_slices ((b.finish fresh).erase I) (b.reset fresh)
  constructor
  · show ((((b.finish fresh).erase I).foldl SegmentBuilder.add
        (b.reset fresh)).slices).flatten
      = b.slices.flatten.filter (fun r => !decide (r.1 ∈ I))
    rw [h.1]
    show (([] : List (Slice α))
        ++ b.slices.map (fun sl => sl.filter (fun r => !decide (r.1 ∈ I)))).flatten
      = b.slices.flatten.filter (fun r => !decide (r.1 ∈ I))
    rw [List.nil_append]
    exact (List.filter_flatten _ b.slices).symm
  · show (((b.finish fresh).erase I).foldl SegmentBuilder.add
        (b.reset fresh)).uuid = fresh
    rw [h.2]
    rfl

/-! ## Passive store: the erase protocol (local_segment_store.cpp, lines 148-186) -/

/-- Error kinds of the store layer that this development distinguishes
(spec §7). -/
inductive Ec where
  | lookup_error
deriving DecidableEq

/-- A reply delivered to a request's response promise. -/
inductive StoreReply where
  | done
  | error (e : Ec)
deriving DecidableEq

/-- Failure switches for the two I/O steps of an erase: whether the write
of the replacement bytes to `<path>.next` succeeds, and whether the rename
over `<path>` succeeds. -/
structure EraseEnv where
  writeOk : Bool
  renameOk : Bool
deriving DecidableEq

/-- The state touched by a passive-store erase: the in-memory segment
handle, the segment file at `<path>`, and the file at `<path>.next` when it
exists. -/
structure EraseState (α : Type) where
  mem : Segment α
  disk : Segment α
  next : Option (Segment α)
deriving DecidableEq

/-- The observable events of one erase, in the order they happen. -/
inductive EraseEv (α : Type) where
  | respond (r : StoreReply)
  | writeNext (seg : Segment α)
  | renameOver
  | swapMem (seg : Segment α)
deriving DecidableEq

/-- Erase handler of the passive store (local_segment_store.cpp, lines
148-186).  The handler builds the replacement segment with `copy_without`,
dispatches the write of `<path>.next` to the filesystem actor and returns
`atom::done_v` (line 185), so the caller's promise is fulfilled before the
write continuation runs.  The continuation (lines 171-184) renames the new
file over the old path and swaps the in-memory segment handle; on a failed
write it only logs (lines 182-184), and on a failed rename it logs but
still swaps the in-memory segment (line 180 runs unconditionally).  The
segment-not-loaded deferral (lines 149-156) is handled by the machine
below, and `copy_without` is modelled total (spec §4.1 gives it no failure
case). -/
def passive_erase {α} (st : EraseState α) (xs : List Nat) (env : EraseEnv) :
    EraseState α × List (EraseEv α) :=
  let seg := st.mem.copy_without xs
  if env.writeOk then
    if env.renameOk then
      (⟨seg, seg, none⟩,
        [.respond .done, .writeNext seg, .renameOver, .swapMem seg])
    else
      (⟨seg, st.disk, some seg⟩,
        [.respond .done, .writeNext seg, .swapMem seg])
  else
    (st, [.respond .done])

/-- Counterexample to C1 as stated: at a concrete one-record segment, when
the write of the replacement bytes fails the erase still answers `done`
rather than returning the error, and when the rename fails the in-memory
segment is nevertheless swapped away from the pre-erase segment. -/
theorem passive_erase_c1_counterexample :
    (passive_erase
        (⟨⟨0, [[(0, 0)]]⟩, ⟨0, [[(0, 0)]]⟩, none⟩ : EraseState Nat)
        [0] ⟨false, true⟩).2 = [.respond .done] ∧
    (passive_erase
        (⟨⟨0, [[(0, 0)]]⟩, ⟨0, [[(0, 0)]]⟩, none⟩ : EraseState Nat)
        [0] ⟨true, false⟩).1.mem
      ≠ (⟨⟨0, [[(0, 0)]]⟩, ⟨0, [[(0, 0)]]⟩, none⟩ : EraseState Nat).mem := by
  decide

/-- C1 (amended): on a failed write the caller still receives `done` (the
error is only logged), the in-memory segment is retained and the on-disk
file is untouched; on a failed rename the caller receives `done`, the
on-disk segment file is unchanged, but the in-memory segment is swapped to
the erased segment; and the rename is performed only when the write of the
replacement bytes succeeded, after it. -/
theorem passive_erase_failure {α} (st : EraseState α) (xs : List Nat)
    (env : EraseEnv) :
    (env.writeOk = false →
      (passive_erase st xs env).1 = st ∧
      (passive_erase st xs env).2 = [.respond .done]) ∧
    (env.writeOk = true → env.renameOk = false →
      (passive_erase st xs env).1.disk = st.disk ∧
      (passive_erase st xs env).1.mem = st.mem.copy_without xs ∧
      EraseEv.renameOver ∉ (passive_erase st xs env).2 ∧
      (passive_erase st xs env).2.head? = some (.respond .done)) ∧
    (EraseEv.renameOver ∈ (passive_erase st xs env).2 →
      env.writeOk = true ∧ env.renameOk = true ∧
      (passive_erase st xs env).2
        = [.respond .done, .writeNext (st.mem.copy_without xs), .renameOver,
           .swapMem (st.mem.copy_without xs)]) := by
  rcases env with ⟨w, r⟩
  cases w <;> cases r <;>
    simp [passive_erase]

/-- Witness for C1 at a concrete state with a failing write. -/
theorem passive_erase_failure_witness :
    (passive_erase
        (⟨⟨7, [[(3, 5)]]⟩, ⟨7, [[(3, 5)]]⟩, none⟩ : EraseState Nat)
        [3] ⟨false, false⟩).1
      = (⟨⟨7, [[(3, 5)]]⟩, ⟨7, [[(3, 5)]]⟩, none⟩ : EraseState Nat) ∧
    (passive_erase
        (⟨⟨7, [[(3, 5)]]⟩, ⟨7, [[(3, 5)]]⟩, none⟩ : EraseState Nat)
        [3] ⟨false, false⟩).2 = [.respond .done] :=
  (passive_erase_failure
    (⟨⟨7, [[(3, 5)]]⟩, ⟨7, [[(3, 5)]]⟩, none⟩ : EraseState Nat)
    [3] ⟨false, false⟩).1 rfl

/-- Counterexample to C3 as stated: at a concrete input with both I/O steps
succeeding, the caller's `done` is the first event of the erase and the
commit (the rename) only happens afterwards, so `done` is not received
only after the commit has completed. -/
theorem passive_erase_c3_counterexample :
    ((passive_erase
        (⟨⟨0, [[(0, 0)]]⟩, ⟨0, [[(0, 0)]]⟩, none⟩ : EraseState Nat)
        [0] ⟨true, true⟩).2.head? = some (.respond .done)) ∧
    EraseEv.renameOver ∈ ((passive_erase
        (⟨⟨0, [[(0, 0)]]⟩, ⟨0, [[(0, 0)]]⟩, none⟩ : EraseState Nat)
        [0] ⟨true, true⟩).2.tail) := by
  decide

/-- C3 (amended): the caller receives `done` as the first event of the
erase, once the replacement segment is built and the write dispatched but
before the commit; commit and in-memory swap happen in the continuation
after the response, so a request processed before the continuation still
sees the pre-erase segment, and after a successful commit both the
in-memory and the on-disk segment are the post-erase segment. -/
theorem erase_commit_order {α} (st : EraseState α) (xs : List Nat)
    (env : EraseEnv) :
    ((passive_erase st xs env).2.head? = some (.respond .done)) ∧
    (env.writeOk = true → env.renameOk = true →
      (passive_erase st xs env).2
        = [.respond .done, .writeNext (st.mem.copy_without xs), .renameOver,
           .swapMem (st.mem.copy_without xs)] ∧
      (passive_erase st xs env).1.mem = st.mem.copy_without xs ∧
      (passive_erase st xs env).1.disk = st.mem.copy_without xs) := by
  rcases env with ⟨w, r⟩
  cases w <;> cases r <;>
    simp [passive_erase]

/-- Witness for C3 at a concrete state with both I/O steps succeeding. -/
theorem erase_commit_order_witness :
    ((passive_erase
        (⟨⟨7, [[(3, 5)]]⟩, ⟨7, [[(3, 5)]]⟩, none⟩ : EraseState Nat)
        [3] ⟨true, true⟩).2.head? = some (.respond .done)) ∧
    (passive_erase
        (⟨⟨7, [[(3, 5)]]⟩, ⟨7, [[(3, 5)]]⟩, none⟩ : EraseState Nat)
        [3] ⟨true, true⟩).2
      = [.respond .done,
         .writeNext ((⟨7, [[(3, 5)]]⟩ : Segment Nat).copy_without [3]),
         .renameOver,
         .swapMem ((⟨7, [[(3, 5)]]⟩ : Segment Nat).copy_without [3])] :=
  ⟨(erase_commit_order
      (⟨⟨7, [[(3, 5)]]⟩, ⟨7, [[(3, 5)]]⟩, none⟩ : EraseState Nat)
      [3] ⟨true, true⟩).1,
   ((erase_commit_order
      (⟨⟨7, [[(3, 5)]]⟩, ⟨7, [[(3, 5)]]⟩, none⟩ : EraseState Nat)
      [3] ⟨true, true⟩).2 rfl rfl).1⟩

/-! ## Passive store: loading, deferral and replay
(local_segment_store.cpp, lines 98-147) -/

/-- A (query, ids) request together with the id of its response promise. -/
structure StoreReq (α : Type) where
  rid : Nat
  q : Query α
  ids : List Nat

/-- State of a passive store (`passive_store_state`): the segment once
loaded, and the queue of deferred requests. -/
structure PassiveState (α : Type) where
  segment : Option (Segment α)
  deferred : List (StoreReq α)

/-- A message processed by a passive store. -/
inductive PMsg (α : Type) where
  | req (r : StoreReq α)
  | loadOk (seg : Segment α)
  | loadFail
  | exitMsg

/-- Replies produced by processing a request list in the Ready state,
threading the segment (erases may change it) and collecting the responses
in order.  The per-request Ready dispatch (lines 137-146: erase delegation
or `segment.lookup` plus `handle_lookup`) is the parameter `hr`; the
deferral and replay logic proved below is uniform in it. -/
def runReady {α} (hr : StoreReq α → Segment α → StoreReply × Segment α)
    (seg : Segment α) (reqs : List (StoreReq α)) :
    Segment α × List (Nat × StoreReply) :=
  reqs.foldl (fun acc r =>
    let res := hr r acc.1
    (res.2, acc.2 ++ [(r.rid, res.1)])) (seg, [])

/-- One message-processing step of the passive store.

* a request while the segment is not loaded is appended to the deferred
  queue and its promise stays pending (lines 131-135);
* a request in the Ready state is dispatched immediately (lines 137-146,
  the parameter `hr`);
* a successful load stores the segment and drains the deferred queue by
  re-dispatching every request to self in FIFO order (lines 110-126);
* a failed load — the chunk does not parse (lines 112-117, the store sends
  itself an exit) or the mmap request fails (modelled from the spec: the
  actor exits) — runs the exit handler (lines 103-108), which fails every
  deferred request with `ec::lookup_error`;
* an exit message runs the same exit handler. -/
def pstep {α} (hr : StoreReq α → Segment α → StoreReply × Segment α)
    (st : PassiveState α) (m : PMsg α) :
    PassiveState α × List (Nat × StoreReply) :=
  match m with
  | .req r =>
    match st.segment with
    | none => (⟨none, st.deferred ++ [r]⟩, [])
    | some seg =>
      let res := hr r seg
      (⟨some res.2, st.deferred⟩, [(r.rid, res.1)])
  | .loadOk seg =>
    let res := runReady hr seg st.deferred
    (⟨some res.1, []⟩, res.2)
  | .loadFail =>
    (⟨st.segment, []⟩,
      st.deferred.map (fun r => (r.rid, .error .lookup_error)))
  | .exitMsg =>
    (⟨st.segment, []⟩,
      st.deferred.map (fun r => (r.rid, .error .lookup_error)))

/-- Processing of a message sequence, collecting all responses in order. -/
def prun {α} (hr : StoreReq α → Segment α → StoreReply × Segment α)
    (st : PassiveState α) (msgs : List (PMsg α)) :
    PassiveState α × List (Nat × StoreReply) :=
  msgs.foldl (fun acc m =>
    let res := pstep hr acc.1 m
    (res.1, acc.2 ++ res.2)) (st, [])

/-- C2: when loading fails while the deferred queue is non-empty, every
deferred request receives a `lookup_error` response — one response per
deferred request, in queue order, none left unanswered — and the queue is
cleared. -/
theorem deferred_failure_fanout {α}
    (hr : StoreReq α → Segment α → StoreReply × Segment α)
    (st : PassiveState α) (hne : st.deferred ≠ []) :
    (pstep hr st .loadFail).2
        = st.deferred.map (fun r => (r.rid, StoreReply.error .lookup_error)) ∧
    (pstep hr st .loadFail).2.length = st.deferred.length ∧
    (∀ r ∈ st.deferred,
      (r.rid, StoreReply.error .lookup_error) ∈ (pstep hr st .loadFail).2) ∧
    (pstep hr st .loadFail).1.deferred = [] ∧
    (pstep hr st .loadFail).2 ≠ [] := by
  refine ⟨rfl, by simp [pstep], ?_, rfl, by simp [pstep, hne]⟩
  intro r hrm
  simp only [pstep, List.mem_map]
  exact ⟨r, hrm, rfl⟩

/-- Witness for C2 at a concrete store with two deferred requests. -/
theorem deferred_failure_fanout_witness :
    ((⟨none, [⟨1, ⟨.count .exact, none⟩, [0]⟩,
        ⟨2, ⟨.extract .preserve_ids, none⟩, []⟩]⟩ :
      PassiveState Nat).deferred ≠ []) ∧
    (pstep (fun _ seg => (.done, seg))
        (⟨none, [⟨1, ⟨.count .exact, none⟩, [0]⟩,
            ⟨2, ⟨.extract .preserve_ids, none⟩, []⟩]⟩ : PassiveState Nat)
        .loadFail).2
      = [(1, .error .lookup_error), (2, .error .lookup_error)] := by
  refine ⟨by simp, ?_⟩
  have h := deferred_failure_fanout (fun _ seg => (.done, seg))
    (⟨none, [⟨1, ⟨.count .exact, none⟩, [0]⟩,
        ⟨2, ⟨.extract .preserve_ids, none⟩, []⟩]⟩ : PassiveState Nat)
    (by simp)
  simpa using h.1

/-- C5: a passive store that receives requests `r1, r2, r3` while its
segment is not yet loaded and then loads successfully delivers exactly the
same responses, in the same order, as a store that was already Ready with
that segment when the requests arrived — and reaches the same final
state.  This holds for every Ready-state dispatch `hr`. -/
theorem deferred_replay_fifo {α}
    (hr : StoreReq α → Segment α → StoreReply × Segment α)
    (seg : Segment α) (r1 r2 r3 : StoreReq α) :
    prun hr ⟨none, []⟩ [.req r1, .req r2, .req r3, .loadOk seg]
      = prun hr ⟨some seg, []⟩ [.req r1, .req r2, .req r3] := by
  rcases h1 : hr r1 seg with ⟨rep1, seg1⟩
  rcases h2 : hr r2 seg1 with ⟨rep2, seg2⟩
  rcases h3 : hr r3 seg2 with ⟨rep3, seg3⟩
  simp [prun, pstep, runReady, h1, h2, h3]

/-! ## Query supervisor

The supervisor implementation is not part of the sources at hand — only its
unit test (test/system/query_supervisor.cpp) is — so this section is
modelled from the specification (§4.7) together with the dummy partition of
that test: each partition, upon receiving the query, sends the rank of its
id set to the sink and answers `done` to the supervisor. -/

/-- Modelled from the spec (§3): the rank (popcount) of an id set. -/
def rank (x : List Nat) : Nat :=
  x.length

/-- A message observed by the client sink. -/
inductive SinkMsg where
  | count (n : Nat)
  | done
deriving DecidableEq

/-- A message observed by the supervisor's master (the index). -/
inductive MasterMsg where
  | workerReg
deriving DecidableEq

/-- Modelled from the spec (§4.7): arrival of one partition response at the
supervisor.  The partition has sent its count `c` to the sink and `done` to
the supervisor, which decrements its pending count and, when it reaches
zero, sends `done` to the sink and re-registers itself as an idle worker
with its master. -/
def svStep (acc : Nat × List SinkMsg × List MasterMsg) (c : Nat) :
    Nat × List SinkMsg × List MasterMsg :=
  let pending := acc.1 - 1
  let sink := acc.2.1 ++ [SinkMsg.count c]
  if pending = 0 then
    (0, sink ++ [SinkMsg.done], acc.2.2 ++ [MasterMsg.workerReg])
  else
    (pending, sink, acc.2.2)

/-- Modelled from the spec (§4.7): supervision of one query whose partition
counts arrive in the given order; yields the messages the sink and the
master observe. -/
def supervise (counts : List Nat) : List SinkMsg × List MasterMsg :=
  (counts.foldl svStep (counts.length, [], [])).2

/-- Unfolding of the supervision fold from a pending count that matches the
number of remaining arrivals. -/
theorem svStep_foldl (l : List Nat) (s : List SinkMsg) (m : List MasterMsg)
    (hl : l ≠ []) :
    l.foldl svStep (l.length, s, m)
      = (0, s ++ l.map SinkMsg.count ++ [SinkMsg.done],
         m ++ [MasterMsg.workerReg]) := by
  induction l generalizing s m with
  | nil => cases hl rfl
  | cons c t ih =>
    rw [List.foldl_cons]
    by_cases ht : t = []
    · subst ht
      simp [svStep]
    · have htl : t.length ≠ 0 := fun h => ht (List.length_eq_zero.mp h)
      have hstep : svStep ((c :: t).length, s, m)
          = fun c => svStep ((c :: t).length, s, m) c := rfl
      have hstep2 : svStep ((c :: t).length, s, m) c
          = (t.length, s ++ [SinkMsg.count c], m) := by
        simp [svStep, htl]
      rw [hstep2, ih (s ++ [SinkMsg.count c]) m ht]
      simp

/-- C9: a count query fanned across a non-empty set of partitions whose
responses arrive in any order makes the client sink receive exactly one
count message per partition — their sum being the sum of the partition
ranks — followed by exactly one final `done`, after which the supervisor
re-registers itself as an idle worker with its master. -/
theorem supervisor_aggregation (parts arrivals : List (List Nat))
    (hp : arrivals.Perm parts) (hne : parts ≠ []) :
    (supervise (arrivals.map rank)).1
        = (arrivals.map rank).map SinkMsg.count ++ [SinkMsg.done] ∧
    ((arrivals.map rank).map SinkMsg.count).length = parts.length ∧
    (arrivals.map rank).sum = (parts.map rank).sum ∧
    (supervise (arrivals.map rank)).2 = [MasterMsg.workerReg] := by
  have hane : arrivals ≠ [] := by
    intro h
    subst h
    exact hne (List.Perm.eq_nil hp.symm)
  have hmne : arrivals.map rank ≠ [] := by
    simpa using hane
  have h := svStep_foldl (arrivals.map rank) [] [] hmne
  refine ⟨?_, ?_, ?_, ?_⟩
  · rw [supervise, h]
    simp
  · simp [hp.length_eq]
  · exact (hp.map rank).sum_eq
  · rw [supervise, h]
    simp

/-- Witness for C9 at the partitions of the supervisor unit test, with the
counts `5, 2, 2` arriving out of order and summing to `9`. -/
theorem supervisor_aggregation_witness :
    ([[1, 7], [0, 2, 4, 6, 8], [3, 5]].Perm
        [[0, 2, 4, 6, 8], [1, 7], [3, 5]] ∧
      ([[0, 2, 4, 6, 8], [1, 7], [3, 5]] : List (List Nat)) ≠ []) ∧
    ((supervise ([[1, 7], [0, 2, 4, 6, 8], [3, 5]].map rank)).1
        = ([[1, 7], [0, 2, 4, 6, 8], [3, 5]].map rank).map SinkMsg.count
            ++ [SinkMsg.done] ∧
      (([[1, 7], [0, 2, 4, 6, 8], [3, 5]].map rank).map SinkMsg.count).length
        = ([[0, 2, 4, 6, 8], [1, 7], [3, 5]] : List (List Nat)).length ∧
      ([[1, 7], [0, 2, 4, 6, 8], [3, 5]].map rank).sum
        = (([[0, 2, 4, 6, 8], [1, 7], [3, 5]] : List (List Nat)).map rank).sum ∧
      (supervise ([[1, 7], [0, 2, 4, 6, 8], [3, 5]].map rank)).2
        = [MasterMsg.workerReg]) :=
  ⟨⟨by decide, by decide⟩,
   supervisor_aggregation [[0, 2, 4, 6, 8], [1, 7], [3, 5]]
     [[1, 7], [0, 2, 4, 6, 8], [3, 5]] (by decide) (by decide)⟩

end Vast
